import Mathlib

/-
Shallow embedding of the yagc Gemini client core (src/url.rs,
src/client/request.rs, src/client/response.rs, src/client/tofu.rs,
src/client.rs).  Strings are modelled as `List Char`; the nom parser
combinators used by the source are embedded as total functions.  A Rust
panic (an `unwrap` on an `Err`) is modelled by the distinguished outcome
`crash`, kept separate from a recoverable nom parse error (`fail`), which
in turn is separate from a typed `TryFrom` error.  The unbounded
`many0`/`many1` combinator loops are embedded with a fuel argument; each
loop iteration of the source consumes at least one input character, so
fuel `input.length + 1` (as passed by every caller below) is enough for
the loop to run to completion, and the embedding is exact.
-/

namespace Yagc

/-- Result of one embedded nom-style parser: success with the value and the
remaining input, a recoverable parse failure, or a crash modelling a Rust
panic. -/
inductive PR (α : Type) where
  | ok : α → List Char → PR α
  | fail : PR α
  | crash : PR α
  deriving DecidableEq

/-- Outcome of a whole TryFrom conversion: typed success, typed error
(the source's error `String` payload is dropped), or a crash modelling a
Rust panic. -/
inductive TR (α : Type) where
  | ok : α → TR α
  | err : TR α
  | crash : TR α
  deriving DecidableEq

/-- Consume an exact literal tag, returning the remaining input
(nom `tag`). -/
def dropTag : List Char → List Char → Option (List Char)
  | [], input => some input
  | _ :: _, [] => none
  | t :: ts, c :: cs => if c = t then dropTag ts cs else none

/-- Longest prefix of characters satisfying `p`, paired with the rest of
the input (nom `take_while`). -/
def spanP (p : Char → Bool) : List Char → List Char × List Char
  | [] => ([], [])
  | c :: rest =>
    if p c then (c :: (spanP p rest).1, (spanP p rest).2)
    else ([], c :: rest)

/-- The scheme part of a URL (src/url.rs, enum Scheme). -/
inductive Scheme where
  | gemini
  | about
  deriving DecidableEq

/-- Scheme::to_string (src/url.rs lines 17-24). -/
def schemeToChars : Scheme → List Char
  | Scheme.gemini => "gemini".data
  | Scheme.about => "about".data

/-- The host part of a URL (src/url.rs, struct Host).  The port is a
`u16` in the source; it is modelled as a `Nat`, and every port the parser
itself produces is at most 65535. -/
structure Host where
  name : List Char
  port : Nat
  deriving DecidableEq

/-- DEFAULT_PORT (src/url.rs line 5). -/
def DEFAULT_PORT : Nat := 1965

/-- The character for a single decimal digit value. -/
def digitChar (d : Nat) : Char := Char.ofNat (48 + d)

/-- Decimal digits of a number, most significant first, as Rust's
`format!` renders an unsigned integer.  Fuel-indexed: the digit count of
`n` never exceeds `n + 1`, so the fuel `n + 1` used by `natChars` always
suffices. -/
def natCharsF : Nat → Nat → List Char
  | 0, _ => []
  | fuel + 1, n =>
    if n < 10 then [digitChar n]
    else natCharsF fuel (n / 10) ++ [digitChar (n % 10)]

/-- Decimal rendering of a `Nat`. -/
def natChars (n : Nat) : List Char := natCharsF (n + 1) n

/-- Host::to_string (src/url.rs lines 34-38): "name:port", the port is
always printed. -/
def hostToChars (h : Host) : List Char :=
  h.name ++ ':' :: natChars h.port

/-- A URL to a Gemini resource (src/url.rs, struct URL). -/
structure URL where
  scheme : Scheme
  host : Option Host
  path : List Char
  query : Option (List Char)
  deriving DecidableEq

/-- The "?query" tail of URL::to_string (src/url.rs lines 67-70). -/
def queryToChars : Option (List Char) → List Char
  | some q => '?' :: q
  | none => []

/-- URL::to_string (src/url.rs lines 53-74): scheme, ":", then "//host"
when present, then the path (with "/" prepended unless the path already
starts with one), then "?query" when present. -/
def urlToChars (u : URL) : List Char :=
  schemeToChars u.scheme ++ ':' ::
    ((match u.host with
      | some h => '/' :: '/' :: hostToChars h
      | none => []) ++
     (if u.path.head? = some '/' then [] else ['/']) ++ u.path ++
     queryToChars u.query)

/-- URL::scheme (src/url.rs lines 81-99): alt(tag "gemini", tag "about")
terminated by ":". -/
def schemeP (input : List Char) : Option (Scheme × List Char) :=
  match dropTag "gemini".data input with
  | some r1 =>
    match dropTag [':'] r1 with
    | some r2 => some (Scheme.gemini, r2)
    | none => none
  | none =>
    match dropTag "about".data input with
    | some r1 =>
      match dropTag [':'] r1 with
      | some r2 => some (Scheme.about, r2)
      | none => none
    | none => none

/-- A hostname character: anything other than '.', '/' and ':'
(src/url.rs lines 103 and 106). -/
def notHostChar (c : Char) : Bool :=
  !(c = '.' || c = '/' || c = ':')

/-- many1(preceded(tag ".", take_while notHostChar)) from URL::hostname
(src/url.rs lines 104-107), returning the consumed text (with its dots)
and the rest.  `none` means the first iteration failed (no leading dot).
Fuel-indexed; each iteration consumes the dot, so `input.length + 1` fuel
always suffices. -/
def dotPartsF : Nat → List Char → Option (List Char × List Char)
  | 0, _ => none
  | fuel + 1, input =>
    match input with
    | [] => none
    | c :: rest =>
      if c = '.' then
        match dotPartsF fuel (spanP notHostChar rest).2 with
        | some (more, r2) =>
          some ('.' :: ((spanP notHostChar rest).1 ++ more), r2)
        | none =>
          some ('.' :: (spanP notHostChar rest).1, (spanP notHostChar rest).2)
      else none

/-- URL::hostname (src/url.rs lines 101-119): a first take_while of
hostname characters, then at least one ".part" group; the pieces are
joined back with their dots. -/
def hostnameP (input : List Char) : PR (List Char) :=
  match dotPartsF ((spanP notHostChar input).2.length + 1)
      (spanP notHostChar input).2 with
  | some (more, r2) => PR.ok ((spanP notHostChar input).1 ++ more) r2
  | none => PR.fail

/-- Numeric value of a digit string, as Rust's `str::parse` computes it
on an all-digit input. -/
def digitsVal (l : List Char) : Nat :=
  l.foldl (fun a c => 10 * a + (c.toNat - 48)) 0

/-- URL::port (src/url.rs lines 121-129): digit1 followed by
`parse::<u16>().unwrap()` — the unwrap crashes (Rust panic) when the
digits denote a value over 65535. -/
def portP (input : List Char) : PR Nat :=
  if (spanP Char.isDigit input).1 = [] then PR.fail
  else if digitsVal (spanP Char.isDigit input).1 ≤ 65535 then
    PR.ok (digitsVal (spanP Char.isDigit input).1) (spanP Char.isDigit input).2
  else PR.crash

/-- URL::host (src/url.rs lines 131-148): tag "//", hostname, then an
optional ":port"; a failing port parse makes the whole `opt` back up to
just after the hostname; a missing port defaults to DEFAULT_PORT. -/
def hostP (input : List Char) : PR Host :=
  match dropTag ['/', '/'] input with
  | none => PR.fail
  | some r1 =>
    match hostnameP r1 with
    | PR.fail => PR.fail
    | PR.crash => PR.crash
    | PR.ok name r2 =>
      match dropTag [':'] r2 with
      | none => PR.ok ⟨name, DEFAULT_PORT⟩ r2
      | some r3 =>
        match portP r3 with
        | PR.ok p r4 => PR.ok ⟨name, p⟩ r4
        | PR.fail => PR.ok ⟨name, DEFAULT_PORT⟩ r2
        | PR.crash => PR.crash

/-- URL::query (src/url.rs lines 150-157): tag "?" then take_while(true),
which consumes all remaining input. -/
def queryP (input : List Char) : Option (List Char × List Char) :=
  match input with
  | [] => none
  | c :: rest => if c = '?' then some (rest, []) else none

/-- A path-segment character: anything other than '/', '?' and ':'
(src/url.rs lines 161 and 164). -/
def notPathChar (c : Char) : Bool :=
  !(c = '/' || c = '?' || c = ':')

/-- many0(preceded(tag "/", take_while notPathChar)) from URL::path
(src/url.rs lines 162-165), returning the consumed text (with its
slashes) and the rest.  Fuel-indexed exactly like `dotPartsF`. -/
def slashPartsF : Nat → List Char → List Char × List Char
  | 0, input => ([], input)
  | fuel + 1, input =>
    match input with
    | [] => ([], [])
    | c :: rest =>
      if c = '/' then
        ('/' :: ((spanP notPathChar rest).1 ++
            (slashPartsF fuel (spanP notPathChar rest).2).1),
          (slashPartsF fuel (spanP notPathChar rest).2).2)
      else ([], c :: rest)

/-- URL::path (src/url.rs lines 159-177): a first take_while of path
characters, then any number of "/part" groups, joined back together.
This parser never fails. -/
def pathP (input : List Char) : List Char × List Char :=
  ((spanP notPathChar input).1 ++
      (slashPartsF ((spanP notPathChar input).2.length + 1)
        (spanP notPathChar input).2).1,
    (slashPartsF ((spanP notPathChar input).2.length + 1)
      (spanP notPathChar input).2).2)

/-- The URL assembly step of URL::url (src/url.rs lines 187-226),
including URLBuilder defaults (src/url.rs lines 258-302): when there is
no scheme, no host, and the parsed path is nonempty and does not start
with '/', the leading path segment becomes the host (port DEFAULT_PORT)
and the remainder (or "/") becomes the path; otherwise the parsed parts
are used as-is, the scheme defaulting to gemini and an empty path to
"/". -/
def buildURL (oscheme : Option Scheme) (ohost : Option Host)
    (path : List Char) (oquery : Option (List Char)) : URL :=
  if oscheme = none ∧ ohost = none ∧ path ≠ [] ∧ path.head? ≠ some '/' then
    let hostname := path.takeWhile (fun c => c != '/')
    let rest := path.dropWhile (fun c => c != '/')
    let pathPart := if rest = [] then ['/'] else rest
    { scheme := Scheme.gemini
      host := some ⟨hostname, DEFAULT_PORT⟩
      path := pathPart
      query := oquery }
  else
    { scheme := oscheme.getD Scheme.gemini
      host := ohost
      path := if path = [] then ['/'] else path
      query := oquery }

/-- opt(URL::scheme) as used by URL::url: a failed scheme parse consumes
nothing. -/
def optSchemeP (input : List Char) : Option Scheme × List Char :=
  match schemeP input with
  | some (s, r) => (some s, r)
  | none => (none, input)

/-- opt(URL::host) as used by URL::url: a failed host parse consumes
nothing, but a crash (panic) propagates. -/
def hostOptP (input : List Char) : PR (Option Host) :=
  match hostP input with
  | PR.ok h r => PR.ok (some h) r
  | PR.fail => PR.ok none input
  | PR.crash => PR.crash

/-- opt(URL::query) as used by URL::url: a failed query parse consumes
nothing. -/
def optQueryP (input : List Char) : Option (List Char) × List Char :=
  match queryP input with
  | some (q, r) => (some q, r)
  | none => (none, input)

/-- URL::url (src/url.rs lines 179-231): optional scheme, optional host,
path, optional query, then the assembly step. -/
def urlP (input : List Char) : PR URL :=
  match hostOptP (optSchemeP input).2 with
  | PR.crash => PR.crash
  | PR.fail => PR.fail
  | PR.ok ohost i2 =>
    PR.ok
      (buildURL (optSchemeP input).1 ohost (pathP i2).1
        (optQueryP (pathP i2).2).1)
      (optQueryP (pathP i2).2).2

/-- URL::try_from (src/url.rs lines 233-245): run the parser; leftover
input is a typed error; the port unwrap crash propagates. -/
def urlTryFrom (input : List Char) : TR URL :=
  match urlP input with
  | PR.ok u rest => if rest = [] then TR.ok u else TR.err
  | PR.fail => TR.err
  | PR.crash => TR.crash

/-- Byte length of a character list under UTF-8, as Rust's
`str::bytes().count()` measures it. -/
def byteLen (l : List Char) : Nat :=
  l.foldl (fun n c => n + c.utf8Size) 0

/-- Request::to_string (src/client/request.rs lines 7-11): the wire form
is the URL's string form followed by CRLF. -/
def requestToChars (u : URL) : List Char :=
  urlToChars u ++ ['\r', '\n']

/-- Request::is_valid_length (src/client/request.rs lines 13-18): the
check measures the URL's string form, without the CRLF terminator,
against 1024 bytes. -/
def isValidLength (u : URL) : Bool :=
  byteLen (urlToChars u) ≤ 1024

/-- The validation gate at the top of Client::send_request
(src/client.rs lines 104-112): this runs before anything is written to
the connection; `some n` is the RequestTooLong error carrying the URL's
byte length `n`, `none` means the request proceeds to the write. -/
def sendRequestGate (u : URL) : Option Nat :=
  if isValidLength u then none else some (byteLen (urlToChars u))

/-- The type of a MIME type (src/client/response.rs, enum
MimeTypeType). -/
inductive MimeTypeType where
  | textGemini
  | textPlain
  deriving DecidableEq

/-- MimeTypeType::to_string (src/client/response.rs lines 19-26). -/
def mimeTypeTypeToChars : MimeTypeType → List Char
  | MimeTypeType.textPlain => "text/plain".data
  | MimeTypeType.textGemini => "text/gemini".data

/-- A character set (src/client/response.rs, enum Charset). -/
inductive Charset where
  | utf8
  | usAscii
  deriving DecidableEq

/-- Charset::to_string (src/client/response.rs lines 37-44). -/
def charsetToChars : Charset → List Char
  | Charset.utf8 => "utf-8".data
  | Charset.usAscii => "us-ascii".data

/-- A MIME type (src/client/response.rs, struct MimeType). -/
structure MimeType where
  mimeType : MimeTypeType
  charset : Charset
  deriving DecidableEq

/-- MimeType::to_string (src/client/response.rs lines 55-59): the charset
is always printed. -/
def mimeTypeToChars (mt : MimeType) : List Char :=
  mimeTypeTypeToChars mt.mimeType ++ ";charset=".data ++
    charsetToChars mt.charset

/-- MimeType::new (src/client/response.rs lines 61-66): a missing charset
defaults to utf-8. -/
def mimeTypeNew (t : MimeTypeType) (cs : Option Charset) : MimeType :=
  ⟨t, cs.getD Charset.utf8⟩

/-- A response to a request (src/client/response.rs, enum Response):
eighteen variants over the status codes 10, 11, 20, 30, 31, 40-44,
50-53, 59, 60-62. -/
inductive Response where
  | input (prompt : List Char)
  | sensitiveInput (prompt : List Char)
  | success (bodyMimeType : MimeType) (body : List Char)
  | temporaryRedirect (url : List Char)
  | permanentRedirect (url : List Char)
  | temporaryFailure (information : List Char)
  | serverUnavailable (information : List Char)
  | cgiError (information : List Char)
  | proxyError (information : List Char)
  | slowDown (information : List Char)
  | permanentFailure (information : List Char)
  | notFound (information : List Char)
  | gone (information : List Char)
  | proxyRequestRefused (information : List Char)
  | badRequest (information : List Char)
  | clientCertificateRequired (information : List Char)
  | certificateNotAuthorized (information : List Char)
  | certificateNotValid (information : List Char)
  deriving DecidableEq

/-- format_response (src/client/response.rs lines 166-168):
"<code> <meta>\r\n<body>" with the code printed in decimal. -/
def formatResponse (code : Nat) (meta body : List Char) : List Char :=
  natChars code ++ ' ' :: (meta ++ '\r' :: '\n' :: body)

/-- Response::to_string (src/client/response.rs lines 170-193). -/
def responseToChars : Response → List Char
  | Response.input p => formatResponse 10 p []
  | Response.sensitiveInput p => formatResponse 11 p []
  | Response.success mt body => formatResponse 20 (mimeTypeToChars mt) body
  | Response.temporaryRedirect u => formatResponse 30 u []
  | Response.permanentRedirect u => formatResponse 31 u []
  | Response.temporaryFailure i => formatResponse 40 i []
  | Response.serverUnavailable i => formatResponse 41 i []
  | Response.cgiError i => formatResponse 42 i []
  | Response.proxyError i => formatResponse 43 i []
  | Response.slowDown i => formatResponse 44 i []
  | Response.permanentFailure i => formatResponse 50 i []
  | Response.notFound i => formatResponse 51 i []
  | Response.gone i => formatResponse 52 i []
  | Response.proxyRequestRefused i => formatResponse 53 i []
  | Response.badRequest i => formatResponse 59 i []
  | Response.clientCertificateRequired i => formatResponse 60 i []
  | Response.certificateNotAuthorized i => formatResponse 61 i []
  | Response.certificateNotValid i => formatResponse 62 i []

/-- nom take_until("\r\n"): the input before the first CRLF paired with
the rest starting at that CRLF; failure when no CRLF occurs. -/
def takeUntilCRLF : List Char → Option (List Char × List Char)
  | [] => none
  | c :: rest =>
    if c = '\r' ∧ rest.head? = some '\n' then some ([], c :: rest)
    else
      match takeUntilCRLF rest with
      | some (pre, post) => some (c :: pre, post)
      | none => none

/-- Whether a CRLF pair occurs anywhere in the list. -/
def hasCRLF : List Char → Bool
  | [] => false
  | c :: rest =>
    if c = '\r' ∧ rest.head? = some '\n' then true else hasCRLF rest

/-- The shared tail of every header-line parser in src/client/response.rs
(e.g. lines 199-201): tag " ", take_until CRLF, tag CRLF, then build the
response from the meta text. -/
def lineTail (k : List Char → Response) (input : List Char) : PR Response :=
  match dropTag [' '] input with
  | none => PR.fail
  | some r1 =>
    match takeUntilCRLF r1 with
    | none => PR.fail
    | some (meta, r2) =>
      match dropTag ['\r', '\n'] r2 with
      | none => PR.fail
      | some r3 => PR.ok (k meta) r3

/-- Response::input_expected (src/client/response.rs lines 197-210). -/
def inputExpectedP (input : List Char) : PR Response :=
  match dropTag ['1', '0'] input with
  | some r1 => lineTail Response.input r1
  | none =>
    match dropTag ['1', '1'] input with
    | some r1 => lineTail Response.sensitiveInput r1
    | none => PR.fail

/-- Response::charset (src/client/response.rs lines 212-222). -/
def charsetP (input : List Char) : Option (Charset × List Char) :=
  match dropTag "utf-8".data input with
  | some r => some (Charset.utf8, r)
  | none =>
    match dropTag "us-ascii".data input with
    | some r => some (Charset.usAscii, r)
    | none => none

/-- The optional ";charset=..." suffix of Response::mime_type
(src/client/response.rs lines 226-229): a failure inside the `opt` backs
up to before the ";charset=" tag. -/
def mimeTypeRest (t : MimeTypeType) (input : List Char) :
    Option (MimeType × List Char) :=
  match dropTag ";charset=".data input with
  | none => some (mimeTypeNew t none, input)
  | some r1 =>
    match charsetP r1 with
    | some (cs, r2) => some (mimeTypeNew t (some cs), r2)
    | none => some (mimeTypeNew t none, input)

/-- Response::mime_type (src/client/response.rs lines 224-238). -/
def mimeTypeP (input : List Char) : Option (MimeType × List Char) :=
  match dropTag "text/plain".data input with
  | some r1 => mimeTypeRest MimeTypeType.textPlain r1
  | none =>
    match dropTag "text/gemini".data input with
    | some r1 => mimeTypeRest MimeTypeType.textGemini r1
    | none => none

/-- Response::success (src/client/response.rs lines 240-248): tag "20 ",
a MIME type, CRLF, and then the whole remaining input is the body with
no further validation; the parser returns with no leftover input. -/
def successP (input : List Char) : PR Response :=
  match dropTag ['2', '0', ' '] input with
  | none => PR.fail
  | some r1 =>
    match mimeTypeP r1 with
    | none => PR.fail
    | some (mt, r2) =>
      match dropTag ['\r', '\n'] r2 with
      | none => PR.fail
      | some body => PR.ok (Response.success mt body) []

/-- Response::temporary_redirect (src/client/response.rs lines
250-264). -/
def temporaryRedirectP (input : List Char) : PR Response :=
  match dropTag ['3', '0'] input with
  | some r1 => lineTail Response.temporaryRedirect r1
  | none =>
    match dropTag ['3', '1'] input with
    | some r1 => lineTail Response.permanentRedirect r1
    | none => PR.fail

/-- Response::temporary_failure (src/client/response.rs lines
266-283). -/
def temporaryFailureP (input : List Char) : PR Response :=
  match dropTag ['4', '0'] input with
  | some r1 => lineTail Response.temporaryFailure r1
  | none =>
    match dropTag ['4', '1'] input with
    | some r1 => lineTail Response.serverUnavailable r1
    | none =>
      match dropTag ['4', '2'] input with
      | some r1 => lineTail Response.cgiError r1
      | none =>
        match dropTag ['4', '3'] input with
        | some r1 => lineTail Response.proxyError r1
        | none =>
          match dropTag ['4', '4'] input with
          | some r1 => lineTail Response.slowDown r1
          | none => PR.fail

/-- Response::permanent_failure (src/client/response.rs lines
285-302). -/
def permanentFailureP (input : List Char) : PR Response :=
  match dropTag ['5', '0'] input with
  | some r1 => lineTail Response.permanentFailure r1
  | none =>
    match dropTag ['5', '1'] input with
    | some r1 => lineTail Response.notFound r1
    | none =>
      match dropTag ['5', '2'] input with
      | some r1 => lineTail Response.gone r1
      | none =>
        match dropTag ['5', '3'] input with
        | some r1 => lineTail Response.proxyRequestRefused r1
        | none =>
          match dropTag ['5', '9'] input with
          | some r1 => lineTail Response.badRequest r1
          | none => PR.fail

/-- Response::client_certificate_required (src/client/response.rs lines
304-319). -/
def clientCertificateRequiredP (input : List Char) : PR Response :=
  match dropTag ['6', '0'] input with
  | some r1 => lineTail Response.clientCertificateRequired r1
  | none =>
    match dropTag ['6', '1'] input with
    | some r1 => lineTail Response.certificateNotAuthorized r1
    | none =>
      match dropTag ['6', '2'] input with
      | some r1 => lineTail Response.certificateNotValid r1
      | none => PR.fail

/-- Response::from_str (src/client/response.rs lines 321-330): the six
group parsers tried in order; the first success wins. -/
def responseFromStr (input : List Char) : PR Response :=
  match inputExpectedP input with
  | PR.ok r rest => PR.ok r rest
  | PR.crash => PR.crash
  | PR.fail =>
    match successP input with
    | PR.ok r rest => PR.ok r rest
    | PR.crash => PR.crash
    | PR.fail =>
      match temporaryRedirectP input with
      | PR.ok r rest => PR.ok r rest
      | PR.crash => PR.crash
      | PR.fail =>
        match temporaryFailureP input with
        | PR.ok r rest => PR.ok r rest
        | PR.crash => PR.crash
        | PR.fail =>
          match permanentFailureP input with
          | PR.ok r rest => PR.ok r rest
          | PR.crash => PR.crash
          | PR.fail =>
            match clientCertificateRequiredP input with
            | PR.ok r rest => PR.ok r rest
            | PR.crash => PR.crash
            | PR.fail => PR.fail

/-- Response::try_from (src/client/response.rs lines 333-345): run the
parser; leftover input is a typed error. -/
def responseTryFrom (input : List Char) : TR Response :=
  match responseFromStr input with
  | PR.ok r rest => if rest = [] then TR.ok r else TR.err
  | PR.fail => TR.err
  | PR.crash => TR.crash

/-- The result of a TOFU verification (src/client/tofu.rs, enum
TofuResult). -/
inductive TofuResult where
  | hostMatch
  | mismatch
  | unknown
  | new
  deriving DecidableEq

/-- A trust-on-first-use store (src/client/tofu.rs, struct TofuStore).
The HashMap is modelled as an association list with unique keys; lookup
and insert below implement exactly the map operations the source
performs. -/
structure TofuStore where
  path : String
  knownHosts : List (String × String)
  deriving DecidableEq

/-- HashMap::get on the association-list model. -/
def lookupHost : List (String × String) → String → Option String
  | [], _ => none
  | (k, v) :: rest, h => if k = h then some v else lookupHost rest h

/-- HashMap::insert on the association-list model: replace the existing
binding or append a new one. -/
def insertHost : List (String × String) → String → String →
    List (String × String)
  | [], h, f => [(h, f)]
  | (k, v) :: rest, h, f =>
    if k = h then (h, f) :: rest else (k, v) :: insertHost rest h f

/-- TofuStore::save_to_disk (src/client/tofu.rs lines 50-56): the write
either succeeds or fails; the environment's choice is the `persistOk`
parameter, `none` modelling the Err case. -/
def saveToDisk (persistOk : Bool) : Option Unit :=
  if persistOk then some () else none

/-- TofuStore::learn_host (src/client/tofu.rs lines 59-63): the entry is
inserted into the in-memory map first, and then the store is saved; the
insertion is kept even when the save fails. -/
def learnHost (s : TofuStore) (hostname fingerprint : String)
    (persistOk : Bool) : TofuStore × Option Unit :=
  let s2 := { s with knownHosts := insertHost s.knownHosts hostname fingerprint }
  (s2, saveToDisk persistOk)

/-- TofuStore::verify_host (src/client/tofu.rs lines 66-74). -/
def verifyHost (s : TofuStore) (hostname claimedFingerprint : String) :
    TofuResult :=
  match lookupHost s.knownHosts hostname with
  | some fp =>
    if fp = claimedFingerprint then TofuResult.hostMatch
    else TofuResult.mismatch
  | none => TofuResult.unknown

/-- TofuStore::verify_or_learn_host (src/client/tofu.rs lines 78-89):
the pair of the store state after the call and its Result value, `none`
standing for the propagated save error.  The source's `New =>
unreachable` arm is modelled as an error result; `verifyHost` never
returns `new`, so the arm is indeed never taken. -/
def verifyOrLearnHost (s : TofuStore) (hostname claimedFingerprint : String)
    (persistOk : Bool) : TofuStore × Option TofuResult :=
  match verifyHost s hostname claimedFingerprint with
  | TofuResult.hostMatch => (s, some TofuResult.hostMatch)
  | TofuResult.mismatch => (s, some TofuResult.mismatch)
  | TofuResult.unknown =>
    match (learnHost s hostname claimedFingerprint persistOk).2 with
    | some _ =>
      ((learnHost s hostname claimedFingerprint persistOk).1,
        some TofuResult.new)
    | none => ((learnHost s hostname claimedFingerprint persistOk).1, none)
  | TofuResult.new => (s, none)

/-- Whether the head of a list (if any) stops a take_while on `p`. -/
def headStops (p : Char → Bool) : List Char → Bool
  | [] => true
  | c :: _ => !p c

/-- The host field of a parse result, used to state what the bare-domain
heuristic of URL::url produces. -/
def prHost : PR URL → Option Host
  | PR.ok u _ => u.host
  | PR.fail => none
  | PR.crash => none

/-- The single metadata line a response variant carries: the prompt, the
redirect target, or the failure information; empty for Success, whose
MIME header is a fixed token. -/
def metaOf : Response → List Char
  | Response.input p => p
  | Response.sensitiveInput p => p
  | Response.success _ _ => []
  | Response.temporaryRedirect u => u
  | Response.permanentRedirect u => u
  | Response.temporaryFailure i => i
  | Response.serverUnavailable i => i
  | Response.cgiError i => i
  | Response.proxyError i => i
  | Response.slowDown i => i
  | Response.permanentFailure i => i
  | Response.notFound i => i
  | Response.gone i => i
  | Response.proxyRequestRefused i => i
  | Response.badRequest i => i
  | Response.clientCertificateRequired i => i
  | Response.certificateNotAuthorized i => i
  | Response.certificateNotValid i => i

/-- The status codes the response parser recognizes, as the literal
two-character tokens the source matches (src/client/response.rs lines
198, 241, 251, 267, 286, 305). -/
def validCodePairs : List (Char × Char) :=
  [('1', '0'), ('1', '1'), ('2', '0'), ('3', '0'), ('3', '1'),
   ('4', '0'), ('4', '1'), ('4', '2'), ('4', '3'), ('4', '4'),
   ('5', '0'), ('5', '1'), ('5', '2'), ('5', '3'), ('5', '9'),
   ('6', '0'), ('6', '1'), ('6', '2')]

/-- The domain on which the URL serialize-then-parse round trip holds:
the path is absolute and free of ':' and '?'; a present host has a
dotted name free of '/' and ':' and a port within the u16 range; an
absent host requires that the serialized tail not re-parse as a
"//"-authority.  Every condition is forced by a concrete URL value in
the parser's own image that violates the round trip when the condition
is dropped. -/
def urlCanonical (u : URL) : Bool :=
  decide (u.path.head? = some '/') && decide (':' ∉ u.path) &&
    decide ('?' ∉ u.path) &&
    (match u.host with
     | some h =>
       decide ('.' ∈ h.name) && decide ('/' ∉ h.name) &&
         decide (':' ∉ h.name) && decide (h.port ≤ 65535)
     | none => decide (hostP (u.path ++ queryToChars u.query) = PR.fail))

theorem spanP_cons_pos (p : Char → Bool) (c : Char) (rest : List Char)
    (h : p c = true) :
    spanP p (c :: rest) = (c :: (spanP p rest).1, (spanP p rest).2) := by
  simp [spanP, h]

theorem spanP_cons_neg (p : Char → Bool) (c : Char) (rest : List Char)
    (h : p c = false) :
    spanP p (c :: rest) = ([], c :: rest) := by
  simp [spanP, h]

theorem spanP_split (p : Char → Bool) (l : List Char) :
    (spanP p l).1 ++ (spanP p l).2 = l := by
  induction l with
  | nil => rfl
  | cons c rest ih =>
    by_cases h : p c = true
    · rw [spanP_cons_pos p c rest h]
      simpa using ih
    · rw [spanP_cons_neg p c rest (by simpa using h)]
      rfl

theorem spanP_fst_all (p : Char → Bool) (l : List Char) :
    (spanP p l).1.all p = true := by
  induction l with
  | nil => rfl
  | cons c rest ih =>
    by_cases h : p c = true
    · rw [spanP_cons_pos p c rest h]
      simpa [h] using ih
    · rw [spanP_cons_neg p c rest (by simpa using h)]
      rfl

theorem spanP_snd_stops (p : Char → Bool) (l : List Char) :
    headStops p (spanP p l).2 = true := by
  induction l with
  | nil => rfl
  | cons c rest ih =>
    by_cases h : p c = true
    · rw [spanP_cons_pos p c rest h]
      exact ih
    · rw [spanP_cons_neg p c rest (by simpa using h)]
      simpa [headStops] using h

theorem spanP_all (p : Char → Bool) (l : List Char) (h : l.all p = true) :
    spanP p l = (l, []) := by
  induction l with
  | nil => rfl
  | cons c rest ih =>
    simp only [List.all_cons, Bool.and_eq_true] at h
    rw [spanP_cons_pos p c rest h.1, ih h.2]

theorem spanP_append_stops (p : Char → Bool) (l r : List Char)
    (hr : headStops p r = true) :
    spanP p (l ++ r) = ((spanP p l).1, (spanP p l).2 ++ r) := by
  induction l with
  | nil =>
    cases r with
    | nil => rfl
    | cons c r' =>
      have hc : p c = false := by simpa [headStops] using hr
      simp only [List.nil_append]
      rw [spanP_cons_neg p c r' hc]
      rfl
  | cons c l' ih =>
    by_cases h : p c = true
    · rw [List.cons_append, spanP_cons_pos p c (l' ++ r) h, ih,
        spanP_cons_pos p c l' h]
    · rw [List.cons_append, spanP_cons_neg p c (l' ++ r) (by simpa using h),
        spanP_cons_neg p c l' (by simpa using h)]
      rfl

theorem dropTag_append (t r : List Char) : dropTag t (t ++ r) = some r := by
  induction t with
  | nil => rfl
  | cons c ts ih => simp [dropTag, ih]

theorem digitChar_isDigit (d : Nat) (h : d < 10) :
    (digitChar d).isDigit = true := by
  interval_cases d <;> decide

theorem digitChar_toNat (d : Nat) (h : d < 10) :
    (digitChar d).toNat = 48 + d := by
  interval_cases d <;> decide

theorem digitsVal_append_one (l : List Char) (c : Char) :
    digitsVal (l ++ [c]) = 10 * digitsVal l + (c.toNat - 48) := by
  simp [digitsVal, List.foldl_append]

theorem natCharsF_spec : ∀ fuel n, n < fuel →
    natCharsF fuel n ≠ [] ∧ (natCharsF fuel n).all Char.isDigit = true ∧
      digitsVal (natCharsF fuel n) = n := by
  intro fuel
  induction fuel with
  | zero => intro n h; exact absurd h (Nat.not_lt_zero n)
  | succ f ih =>
    intro n h
    by_cases h10 : n < 10
    · refine ⟨by simp [natCharsF, h10], ?_, ?_⟩
      · simp [natCharsF, h10, digitChar_isDigit n h10]
      · have := digitChar_toNat n h10
        simp [natCharsF, h10, digitsVal, this]
    · have hn : 10 ≤ n := Nat.le_of_not_lt h10
      have hdiv : n / 10 < f := by
        have h1 : n / 10 < n := Nat.div_lt_self (by omega) (by omega)
        omega
      obtain ⟨h1, h2, h3⟩ := ih (n / 10) hdiv
      have hmod : n % 10 < 10 := Nat.mod_lt n (by omega)
      refine ⟨by simp [natCharsF, h10], ?_, ?_⟩
      · simp [natCharsF, h10, List.all_append, h2, digitChar_isDigit _ hmod]
      · rw [show natCharsF (f + 1) n =
            natCharsF f (n / 10) ++ [digitChar (n % 10)] by
          simp [natCharsF, h10]]
        rw [digitsVal_append_one, h3, digitChar_toNat _ hmod]
        omega

theorem natChars_ne_nil (n : Nat) : natChars n ≠ [] :=
  (natCharsF_spec (n + 1) n (by omega)).1

theorem natChars_all_digit (n : Nat) :
    (natChars n).all Char.isDigit = true :=
  (natCharsF_spec (n + 1) n (by omega)).2.1

theorem digitsVal_natChars (n : Nat) : digitsVal (natChars n) = n :=
  (natCharsF_spec (n + 1) n (by omega)).2.2

theorem dotPartsF_nil (fuel : Nat) : dotPartsF fuel [] = none := by
  cases fuel <;> rfl

theorem dotPartsF_not_dot (fuel : Nat) (c : Char) (r : List Char)
    (h : ¬c = '.') : dotPartsF fuel (c :: r) = none := by
  cases fuel with
  | zero => rfl
  | succ f => simp [dotPartsF, h]

theorem dotPartsF_exact : ∀ fuel m rest, m.length < fuel →
    m.head? = some '.' → '/' ∉ m → ':' ∉ m →
    dotPartsF fuel (m ++ ':' :: rest) = some (m, ':' :: rest) := by
  intro fuel
  induction fuel with
  | zero => intro m rest h _ _ _; exact absurd h (Nat.not_lt_zero _)
  | succ f ih =>
    intro m rest hlen hhead hslash hcolon
    cases m with
    | nil => simp at hhead
    | cons c t =>
      have hc : c = '.' := by simpa using hhead
      subst hc
      have hslash' : '/' ∉ t := fun hx => hslash (List.mem_cons_of_mem _ hx)
      have hcolon' : ':' ∉ t := fun hx => hcolon (List.mem_cons_of_mem _ hx)
      have hspan := spanP_append_stops notHostChar t (':' :: rest) (by rfl)
      rcases hsp : spanP notHostChar t with ⟨s1, s2⟩
      rw [hsp] at hspan
      have hsplit : s1 ++ s2 = t := by
        have := spanP_split notHostChar t
        rw [hsp] at this
        exact this
      have hall : s1.all notHostChar = true := by
        have := spanP_fst_all notHostChar t
        rw [hsp] at this
        exact this
      have hstops : headStops notHostChar s2 = true := by
        have := spanP_snd_stops notHostChar t
        rw [hsp] at this
        exact this
      rw [List.cons_append]
      simp only [dotPartsF, if_pos rfl, hspan]
      cases s2 with
      | nil =>
        rw [List.append_nil] at hsplit
        subst hsplit
        simp only [List.nil_append]
        rw [dotPartsF_not_dot f ':' rest (by decide)]
        simp
      | cons c2 t2 =>
        have hc2f : notHostChar c2 = false := by
          simpa [headStops] using hstops
        have hc2mem : c2 ∈ t := by
          rw [← hsplit]
          exact List.mem_append_right _ (List.mem_cons_self c2 t2)
        have hc2 : c2 = '.' := by
          have hd : c2 = '.' ∨ c2 = '/' ∨ c2 = ':' := by
            by_contra hcon
            push_neg at hcon
            simp [notHostChar, hcon.1, hcon.2.1, hcon.2.2] at hc2f
          rcases hd with h1 | h1 | h1
          · exact h1
          · exact absurd (h1 ▸ hc2mem) hslash'
          · exact absurd (h1 ▸ hc2mem) hcolon'
        subst hc2
        have ht2sub : ∀ x, x ∈ t2 → x ∈ t := by
          intro x hx
          rw [← hsplit]
          exact List.mem_append_right _ (List.mem_cons_of_mem _ hx)
        have hlen2 : ('.' :: t2).length < f := by
          have h1 : t.length < f := by simpa using Nat.lt_of_succ_lt_succ hlen
          have h2 : ('.' :: t2).length ≤ t.length := by
            rw [← hsplit]
            simp
          omega
        have hrec := ih ('.' :: t2) rest hlen2 rfl
          (fun hx => by
            rcases List.mem_cons.mp hx with h1 | h1
            · exact absurd h1.symm (by decide)
            · exact hslash' (ht2sub _ h1))
          (fun hx => by
            rcases List.mem_cons.mp hx with h1 | h1
            · exact absurd h1.symm (by decide)
            · exact hcolon' (ht2sub _ h1))
        rw [List.cons_append] at hrec
        rw [List.cons_append, hrec]
        simp [← hsplit]

theorem hostnameP_exact (name rest : List Char) (hdot : '.' ∈ name)
    (hslash : '/' ∉ name) (hcolon : ':' ∉ name) :
    hostnameP (name ++ ':' :: rest) = PR.ok name (':' :: rest) := by
  have hspan := spanP_append_stops notHostChar name (':' :: rest) (by rfl)
  rcases hsp : spanP notHostChar name with ⟨s1, s2⟩
  rw [hsp] at hspan
  have hsplit : s1 ++ s2 = name := by
    have := spanP_split notHostChar name
    rw [hsp] at this
    exact this
  have hall : s1.all notHostChar = true := by
    have := spanP_fst_all notHostChar name
    rw [hsp] at this
    exact this
  have hstops : headStops notHostChar s2 = true := by
    have := spanP_snd_stops notHostChar name
    rw [hsp] at this
    exact this
  cases s2 with
  | nil =>
    exfalso
    rw [List.append_nil] at hsplit
    subst hsplit
    have := List.all_eq_true.mp hall '.' hdot
    simp [notHostChar] at this
  | cons c2 t2 =>
    have hc2f : notHostChar c2 = false := by simpa [headStops] using hstops
    have hc2mem : c2 ∈ name := by
      rw [← hsplit]
      exact List.mem_append_right _ (List.mem_cons_self c2 t2)
    have hc2 : c2 = '.' := by
      have hd : c2 = '.' ∨ c2 = '/' ∨ c2 = ':' := by
        by_contra hcon
        push_neg at hcon
        simp [notHostChar, hcon.1, hcon.2.1, hcon.2.2] at hc2f
      rcases hd with h1 | h1 | h1
      · exact h1
      · exact absurd (h1 ▸ hc2mem) hslash
      · exact absurd (h1 ▸ hc2mem) hcolon
    subst hc2
    have hsub : ∀ x, x ∈ '.' :: t2 → x ∈ name := by
      intro x hx
      rw [← hsplit]
      exact List.mem_append_right _ hx
    have hdp := dotPartsF_exact ((('.' :: t2) ++ ':' :: rest).length + 1)
      ('.' :: t2) rest (by simp; omega) rfl
      (fun hx => hslash (hsub _ hx))
      (fun hx => hcolon (hsub _ hx))
    unfold hostnameP
    rw [hspan]
    dsimp only
    rw [hdp]
    dsimp only
    rw [hsplit]

theorem slashPartsF_nil (fuel : Nat) : slashPartsF fuel [] = ([], []) := by
  cases fuel <;> rfl

theorem slashPartsF_not_slash (fuel : Nat) (c : Char) (r : List Char)
    (h : ¬c = '/') : slashPartsF fuel (c :: r) = ([], c :: r) := by
  cases fuel with
  | zero => rfl
  | succ f => simp [slashPartsF, h]

theorem restStopsPath (rest : List Char)
    (hrest : rest = [] ∨ ∃ q, rest = '?' :: q) :
    headStops notPathChar rest = true := by
  rcases hrest with h | ⟨q, h⟩ <;> subst h <;> rfl

theorem slashPartsF_exact : ∀ fuel p rest, p.length < fuel →
    p.head? = some '/' → ':' ∉ p → '?' ∉ p →
    (rest = [] ∨ ∃ q, rest = '?' :: q) →
    slashPartsF fuel (p ++ rest) = (p, rest) := by
  intro fuel
  induction fuel with
  | zero => intro p rest h _ _ _ _; exact absurd h (Nat.not_lt_zero _)
  | succ f ih =>
    intro p rest hlen hhead hcolon hq hrest
    cases p with
    | nil => simp at hhead
    | cons c t =>
      have hc : c = '/' := by simpa using hhead
      subst hc
      have hcolon' : ':' ∉ t := fun hx => hcolon (List.mem_cons_of_mem _ hx)
      have hq' : '?' ∉ t := fun hx => hq (List.mem_cons_of_mem _ hx)
      have hspan := spanP_append_stops notPathChar t rest
        (restStopsPath rest hrest)
      rcases hsp : spanP notPathChar t with ⟨s1, s2⟩
      rw [hsp] at hspan
      have hsplit : s1 ++ s2 = t := by
        have := spanP_split notPathChar t
        rw [hsp] at this
        exact this
      have hstops : headStops notPathChar s2 = true := by
        have := spanP_snd_stops notPathChar t
        rw [hsp] at this
        exact this
      rw [List.cons_append]
      simp only [slashPartsF, if_pos rfl, hspan]
      cases s2 with
      | nil =>
        rw [List.append_nil] at hsplit
        subst hsplit
        simp only [List.nil_append]
        rw [show slashPartsF f rest = ([], rest) by
          rcases hrest with h | ⟨q, h⟩
          · subst h; exact slashPartsF_nil f
          · subst h; exact slashPartsF_not_slash f '?' q (by decide)]
        simp
      | cons c2 t2 =>
        have hc2f : notPathChar c2 = false := by
          simpa [headStops] using hstops
        have hc2mem : c2 ∈ t := by
          rw [← hsplit]
          exact List.mem_append_right _ (List.mem_cons_self c2 t2)
        have hc2 : c2 = '/' := by
          have hd : c2 = '/' ∨ c2 = '?' ∨ c2 = ':' := by
            by_contra hcon
            push_neg at hcon
            simp [notPathChar, hcon.1, hcon.2.1, hcon.2.2] at hc2f
          rcases hd with h1 | h1 | h1
          · exact h1
          · exact absurd (h1 ▸ hc2mem) hq'
          · exact absurd (h1 ▸ hc2mem) hcolon'
        subst hc2
        have ht2sub : ∀ x, x ∈ t2 → x ∈ t := by
          intro x hx
          rw [← hsplit]
          exact List.mem_append_right _ (List.mem_cons_of_mem _ hx)
        have hlen2 : ('/' :: t2).length < f := by
          have h1 : t.length < f := by simpa using Nat.lt_of_succ_lt_succ hlen
          have h2 : ('/' :: t2).length ≤ t.length := by
            rw [← hsplit]
            simp
          omega
        have hrec := ih ('/' :: t2) rest hlen2 rfl
          (fun hx => by
            rcases List.mem_cons.mp hx with h1 | h1
            · exact absurd h1.symm (by decide)
            · exact hcolon' (ht2sub _ h1))
          (fun hx => by
            rcases List.mem_cons.mp hx with h1 | h1
            · exact absurd h1.symm (by decide)
            · exact hq' (ht2sub _ h1))
          hrest
        rw [List.cons_append] at hrec
        rw [List.cons_append, hrec]
        simp [← hsplit]

theorem pathP_exact (p rest : List Char) (hhead : p.head? = some '/')
    (hcolon : ':' ∉ p) (hq : '?' ∉ p)
    (hrest : rest = [] ∨ ∃ q, rest = '?' :: q) :
    pathP (p ++ rest) = (p, rest) := by
  cases p with
  | nil => simp at hhead
  | cons c t =>
    have hc : c = '/' := by simpa using hhead
    subst hc
    have hsp : spanP notPathChar (('/' :: t) ++ rest) =
        ([], ('/' :: t) ++ rest) := by
      rw [List.cons_append]
      exact spanP_cons_neg _ _ _ rfl
    unfold pathP
    rw [hsp]
    dsimp only
    rw [slashPartsF_exact ((('/' :: t) ++ rest).length + 1) ('/' :: t) rest
      (by simp; omega) rfl hcolon hq hrest]
    simp

theorem takeUntilCRLF_cons (c : Char) (l : List Char) :
    takeUntilCRLF (c :: l) =
      if c = '\r' ∧ l.head? = some '\n' then some ([], c :: l)
      else
        match takeUntilCRLF l with
        | some (pre, post) => some (c :: pre, post)
        | none => none := rfl

theorem takeUntilCRLF_exact : ∀ (meta rest : List Char),
    hasCRLF meta = false →
    takeUntilCRLF (meta ++ '\r' :: '\n' :: rest) =
      some (meta, '\r' :: '\n' :: rest) := by
  intro meta
  induction meta with
  | nil => intro rest _; rfl
  | cons c m ih =>
    intro rest h
    simp only [hasCRLF] at h
    by_cases hc : c = '\r' ∧ m.head? = some '\n'
    · rw [if_pos hc] at h
      cases h
    · rw [if_neg hc] at h
      rw [List.cons_append, takeUntilCRLF_cons]
      have hcond : ¬(c = '\r' ∧
          (m ++ '\r' :: '\n' :: rest).head? = some '\n') := by
        cases m with
        | nil => simp
        | cons d m' => simpa using hc
      rw [if_neg hcond]
      rw [ih rest h]

theorem lineTail_exact (k : List Char → Response) (meta rest : List Char)
    (h : hasCRLF meta = false) :
    lineTail k (' ' :: (meta ++ '\r' :: '\n' :: rest)) =
      PR.ok (k meta) rest := by
  unfold lineTail
  rw [show dropTag [' '] (' ' :: (meta ++ '\r' :: '\n' :: rest)) =
    some (meta ++ '\r' :: '\n' :: rest) from rfl]
  dsimp only
  rw [takeUntilCRLF_exact meta rest h]
  rfl

theorem byteLen_aux : ∀ (l : List Char) (a : Nat),
    l.foldl (fun n c => n + c.utf8Size) a = a + byteLen l := by
  intro l
  induction l with
  | nil => intro a; simp [byteLen]
  | cons c t ih =>
    intro a
    have h1 : byteLen (c :: t) = 0 + c.utf8Size + byteLen t := by
      show List.foldl (fun n c => n + c.utf8Size) (0 + c.utf8Size) t = _
      rw [ih (0 + c.utf8Size)]
    rw [List.foldl_cons, ih (a + c.utf8Size), h1]
    omega

theorem byteLen_append (l r : List Char) :
    byteLen (l ++ r) = byteLen l + byteLen r := by
  have h1 : byteLen (l ++ r) =
      List.foldl (fun n c => n + c.utf8Size) (byteLen l) r := by
    show List.foldl (fun n c => n + c.utf8Size) 0 (l ++ r) = _
    rw [List.foldl_append]
    rfl
  rw [h1, byteLen_aux]

theorem byteLen_cons (c : Char) (l : List Char) :
    byteLen (c :: l) = c.utf8Size + byteLen l := by
  have h1 : byteLen (c :: l) = 0 + c.utf8Size + byteLen l := by
    show List.foldl (fun n c => n + c.utf8Size) (0 + c.utf8Size) l = _
    rw [byteLen_aux]
  rw [h1]
  omega

theorem byteLen_replicate (n : Nat) (c : Char) :
    byteLen (List.replicate n c) = n * c.utf8Size := by
  induction n with
  | zero => simp [byteLen]
  | succ k ih =>
    rw [List.replicate_succ, byteLen_cons, ih, Nat.succ_mul]
    omega

theorem lookupHost_insertHost_self (l : List (String × String))
    (h f : String) : lookupHost (insertHost l h f) h = some f := by
  induction l with
  | nil => simp [insertHost, lookupHost]
  | cons kv rest ih =>
    rcases kv with ⟨k, v⟩
    by_cases hk : k = h
    · subst hk
      simp [insertHost, lookupHost]
    · simp [insertHost, lookupHost, hk, ih]

theorem optSchemeP_serialized (s : Scheme) (B : List Char) :
    optSchemeP (schemeToChars s ++ ':' :: B) = (some s, B) := by
  cases s <;> rfl

theorem optQueryP_queryToChars (oq : Option (List Char)) :
    optQueryP (queryToChars oq) = (oq, []) := by
  cases oq <;> rfl

theorem queryToChars_shape (oq : Option (List Char)) :
    queryToChars oq = [] ∨ ∃ q, queryToChars oq = '?' :: q := by
  cases oq with
  | none => exact Or.inl rfl
  | some q => exact Or.inr ⟨q, rfl⟩

theorem portP_serialized (port : Nat) (rest : List Char)
    (hport : port ≤ 65535) (hstop : headStops Char.isDigit rest = true) :
    portP (natChars port ++ rest) = PR.ok port rest := by
  have hsp : spanP Char.isDigit (natChars port ++ rest) =
      (natChars port, rest) := by
    rw [spanP_append_stops Char.isDigit _ _ hstop,
      spanP_all Char.isDigit _ (natChars_all_digit port)]
    simp
  unfold portP
  rw [hsp]
  dsimp only
  rw [if_neg (natChars_ne_nil port), digitsVal_natChars, if_pos hport]

theorem hostP_serialized (name : List Char) (port : Nat) (tail : List Char)
    (hdot : '.' ∈ name) (hslash : '/' ∉ name) (hcolon : ':' ∉ name)
    (hport : port ≤ 65535) (hstop : headStops Char.isDigit tail = true) :
    hostP ('/' :: '/' :: (name ++ ':' :: (natChars port ++ tail))) =
      PR.ok ⟨name, port⟩ tail := by
  unfold hostP
  rw [show dropTag ['/', '/']
      ('/' :: '/' :: (name ++ ':' :: (natChars port ++ tail))) =
      some (name ++ ':' :: (natChars port ++ tail)) from rfl]
  dsimp only
  rw [hostnameP_exact name _ hdot hslash hcolon]
  dsimp only
  rw [show dropTag [':'] (':' :: (natChars port ++ tail)) =
    some (natChars port ++ tail) from rfl]
  dsimp only
  rw [portP_serialized port tail hport hstop]

/-- C6 (amended): serialize-then-parse is the identity on every URL in
the canonical domain: absolute ':'/'?'-free path, a host (when present)
with a dotted name free of '/' and ':' and a u16 port, and (when absent)
a serialized tail that does not re-parse as an authority.  The port —
default included — is always serialized, and the parser supplies 1965
when the input has none. -/
theorem url_roundtrip (u : URL) (h : urlCanonical u = true) :
    urlTryFrom (urlToChars u) = TR.ok u := by
  rcases u with ⟨s, oh, path, oq⟩
  cases oh with
  | some host =>
    rcases host with ⟨name, port⟩
    simp only [urlCanonical, Bool.and_eq_true, decide_eq_true_eq] at h
    obtain ⟨⟨⟨hp1, hp2⟩, hp3⟩, ⟨⟨⟨hdot, hslash⟩, hcol⟩, hport⟩⟩ := h
    obtain ⟨pt, rfl⟩ : ∃ t, path = '/' :: t := by
      cases path with
      | nil => simp at hp1
      | cons c t =>
        have hc : c = '/' := by simpa using hp1
        exact ⟨t, by rw [hc]⟩
    have hser : urlToChars ⟨s, some ⟨name, port⟩, '/' :: pt, oq⟩ =
        schemeToChars s ++ ':' ::
          ('/' :: '/' :: (name ++ ':' ::
            (natChars port ++ (('/' :: pt) ++ queryToChars oq)))) := by
      simp [urlToChars, hostToChars]
    rw [hser]
    unfold urlTryFrom urlP
    rw [optSchemeP_serialized]
    dsimp only
    rw [show hostOptP ('/' :: '/' :: (name ++ ':' ::
        (natChars port ++ (('/' :: pt) ++ queryToChars oq)))) =
        PR.ok (some ⟨name, port⟩) (('/' :: pt) ++ queryToChars oq) from by
      unfold hostOptP
      rw [hostP_serialized name port (('/' :: pt) ++ queryToChars oq)
        hdot hslash hcol hport (by rfl)]]
    dsimp only
    rw [pathP_exact ('/' :: pt) (queryToChars oq) rfl hp2 hp3
      (queryToChars_shape oq)]
    dsimp only
    rw [optQueryP_queryToChars]
    dsimp only
    rw [if_pos rfl]
    unfold buildURL
    rw [if_neg (by simp)]
    simp
  | none =>
    simp only [urlCanonical, Bool.and_eq_true, decide_eq_true_eq] at h
    obtain ⟨⟨⟨hp1, hp2⟩, hp3⟩, hfail⟩ := h
    obtain ⟨pt, rfl⟩ : ∃ t, path = '/' :: t := by
      cases path with
      | nil => simp at hp1
      | cons c t =>
        have hc : c = '/' := by simpa using hp1
        exact ⟨t, by rw [hc]⟩
    have hser : urlToChars ⟨s, none, '/' :: pt, oq⟩ =
        schemeToChars s ++ ':' :: (('/' :: pt) ++ queryToChars oq) := by
      simp [urlToChars]
    rw [hser]
    unfold urlTryFrom urlP
    rw [optSchemeP_serialized]
    dsimp only
    rw [show hostOptP (('/' :: pt) ++ queryToChars oq) =
        PR.ok none (('/' :: pt) ++ queryToChars oq) from by
      unfold hostOptP
      rw [hfail]]
    dsimp only
    rw [pathP_exact ('/' :: pt) (queryToChars oq) rfl hp2 hp3
      (queryToChars_shape oq)]
    dsimp only
    rw [optQueryP_queryToChars]
    dsimp only
    rw [if_pos rfl]
    unfold buildURL
    rw [if_neg (by simp)]
    simp

/-- C5 (amended): for every response value whose metadata line (prompt,
redirect target, or failure information) contains no CRLF pair, parsing
the serialization yields exactly the value back; the Success body is
carried through unmodified with no re-validation and no CRLF
restriction.  (The enum has 18 variants, not 17.) -/
theorem response_roundtrip (r : Response) (h : hasCRLF (metaOf r) = false) :
    responseTryFrom (responseToChars r) = TR.ok r := by
  cases r with
  | input p =>
    have hp : inputExpectedP ('1' :: '0' :: ' ' :: (p ++ '\r' :: '\n' :: [])) =
        PR.ok (Response.input p) [] := by
      show lineTail Response.input (' ' :: (p ++ '\r' :: '\n' :: [])) = _
      exact lineTail_exact _ _ _ h
    show responseTryFrom ('1' :: '0' :: ' ' :: (p ++ '\r' :: '\n' :: [])) =
      TR.ok (Response.input p)
    unfold responseTryFrom responseFromStr
    rw [hp]
    rfl
  | sensitiveInput p =>
    have hp : inputExpectedP ('1' :: '1' :: ' ' :: (p ++ '\r' :: '\n' :: [])) =
        PR.ok (Response.sensitiveInput p) [] := by
      show lineTail Response.sensitiveInput (' ' :: (p ++ '\r' :: '\n' :: [])) = _
      exact lineTail_exact _ _ _ h
    show responseTryFrom ('1' :: '1' :: ' ' :: (p ++ '\r' :: '\n' :: [])) =
      TR.ok (Response.sensitiveInput p)
    unfold responseTryFrom responseFromStr
    rw [hp]
    rfl
  | temporaryRedirect p =>
    have hp : temporaryRedirectP ('3' :: '0' :: ' ' :: (p ++ '\r' :: '\n' :: [])) =
        PR.ok (Response.temporaryRedirect p) [] := by
      show lineTail Response.temporaryRedirect (' ' :: (p ++ '\r' :: '\n' :: [])) = _
      exact lineTail_exact _ _ _ h
    show responseTryFrom ('3' :: '0' :: ' ' :: (p ++ '\r' :: '\n' :: [])) =
      TR.ok (Response.temporaryRedirect p)
    unfold responseTryFrom responseFromStr
    rw [hp]
    rfl
  | permanentRedirect p =>
    have hp : temporaryRedirectP ('3' :: '1' :: ' ' :: (p ++ '\r' :: '\n' :: [])) =
        PR.ok (Response.permanentRedirect p) [] := by
      show lineTail Response.permanentRedirect (' ' :: (p ++ '\r' :: '\n' :: [])) = _
      exact lineTail_exact _ _ _ h
    show responseTryFrom ('3' :: '1' :: ' ' :: (p ++ '\r' :: '\n' :: [])) =
      TR.ok (Response.permanentRedirect p)
    unfold responseTryFrom responseFromStr
    rw [hp]
    rfl
  | temporaryFailure p =>
    have hp : temporaryFailureP ('4' :: '0' :: ' ' :: (p ++ '\r' :: '\n' :: [])) =
        PR.ok (Response.temporaryFailure p) [] := by
      show lineTail Response.temporaryFailure (' ' :: (p ++ '\r' :: '\n' :: [])) = _
      exact lineTail_exact _ _ _ h
    show responseTryFrom ('4' :: '0' :: ' ' :: (p ++ '\r' :: '\n' :: [])) =
      TR.ok (Response.temporaryFailure p)
    unfold responseTryFrom responseFromStr
    rw [hp]
    rfl
  | serverUnavailable p =>
    have hp : temporaryFailureP ('4' :: '1' :: ' ' :: (p ++ '\r' :: '\n' :: [])) =
        PR.ok (Response.serverUnavailable p) [] := by
      show lineTail Response.serverUnavailable (' ' :: (p ++ '\r' :: '\n' :: [])) = _
      exact lineTail_exact _ _ _ h
    show responseTryFrom ('4' :: '1' :: ' ' :: (p ++ '\r' :: '\n' :: [])) =
      TR.ok (Response.serverUnavailable p)
    unfold responseTryFrom responseFromStr
    rw [hp]
    rfl
  | cgiError p =>
    have hp : temporaryFailureP ('4' :: '2' :: ' ' :: (p ++ '\r' :: '\n' :: [])) =
        PR.ok (Response.cgiError p) [] := by
      show lineTail Response.cgiError (' ' :: (p ++ '\r' :: '\n' :: [])) = _
      exact lineTail_exact _ _ _ h
    show responseTryFrom ('4' :: '2' :: ' ' :: (p ++ '\r' :: '\n' :: [])) =
      TR.ok (Response.cgiError p)
    unfold responseTryFrom responseFromStr
    rw [hp]
    rfl
  | proxyError p =>
    have hp : temporaryFailureP ('4' :: '3' :: ' ' :: (p ++ '\r' :: '\n' :: [])) =
        PR.ok (Response.proxyError p) [] := by
      show lineTail Response.proxyError (' ' :: (p ++ '\r' :: '\n' :: [])) = _
      exact lineTail_exact _ _ _ h
    show responseTryFrom ('4' :: '3' :: ' ' :: (p ++ '\r' :: '\n' :: [])) =
      TR.ok (Response.proxyError p)
    unfold responseTryFrom responseFromStr
    rw [hp]
    rfl
  | slowDown p =>
    have hp : temporaryFailureP ('4' :: '4' :: ' ' :: (p ++ '\r' :: '\n' :: [])) =
        PR.ok (Response.slowDown p) [] := by
      show lineTail Response.slowDown (' ' :: (p ++ '\r' :: '\n' :: [])) = _
      exact lineTail_exact _ _ _ h
    show responseTryFrom ('4' :: '4' :: ' ' :: (p ++ '\r' :: '\n' :: [])) =
      TR.ok (Response.slowDown p)
    unfold responseTryFrom responseFromStr
    rw [hp]
    rfl
  | permanentFailure p =>
    have hp : permanentFailureP ('5' :: '0' :: ' ' :: (p ++ '\r' :: '\n' :: [])) =
        PR.ok (Response.permanentFailure p) [] := by
      show lineTail Response.permanentFailure (' ' :: (p ++ '\r' :: '\n' :: [])) = _
      exact lineTail_exact _ _ _ h
    show responseTryFrom ('5' :: '0' :: ' ' :: (p ++ '\r' :: '\n' :: [])) =
      TR.ok (Response.permanentFailure p)
    unfold responseTryFrom responseFromStr
    rw [hp]
    rfl
  | notFound p =>
    have hp : permanentFailureP ('5' :: '1' :: ' ' :: (p ++ '\r' :: '\n' :: [])) =
        PR.ok (Response.notFound p) [] := by
      show lineTail Response.notFound (' ' :: (p ++ '\r' :: '\n' :: [])) = _
      exact lineTail_exact _ _ _ h
    show responseTryFrom ('5' :: '1' :: ' ' :: (p ++ '\r' :: '\n' :: [])) =
      TR.ok (Response.notFound p)
    unfold responseTryFrom responseFromStr
    rw [hp]
    rfl
  | gone p =>
    have hp : permanentFailureP ('5' :: '2' :: ' ' :: (p ++ '\r' :: '\n' :: [])) =
        PR.ok (Response.gone p) [] := by
      show lineTail Response.gone (' ' :: (p ++ '\r' :: '\n' :: [])) = _
      exact lineTail_exact _ _ _ h
    show responseTryFrom ('5' :: '2' :: ' ' :: (p ++ '\r' :: '\n' :: [])) =
      TR.ok (Response.gone p)
    unfold responseTryFrom responseFromStr
    rw [hp]
    rfl
  | proxyRequestRefused p =>
    have hp : permanentFailureP ('5' :: '3' :: ' ' :: (p ++ '\r' :: '\n' :: [])) =
        PR.ok (Response.proxyRequestRefused p) [] := by
      show lineTail Response.proxyRequestRefused (' ' :: (p ++ '\r' :: '\n' :: [])) = _
      exact lineTail_exact _ _ _ h
    show responseTryFrom ('5' :: '3' :: ' ' :: (p ++ '\r' :: '\n' :: [])) =
      TR.ok (Response.proxyRequestRefused p)
    unfold responseTryFrom responseFromStr
    rw [hp]
    rfl
  | badRequest p =>
    have hp : permanentFailureP ('5' :: '9' :: ' ' :: (p ++ '\r' :: '\n' :: [])) =
        PR.ok (Response.badRequest p) [] := by
      show lineTail Response.badRequest (' ' :: (p ++ '\r' :: '\n' :: [])) = _
      exact lineTail_exact _ _ _ h
    show responseTryFrom ('5' :: '9' :: ' ' :: (p ++ '\r' :: '\n' :: [])) =
      TR.ok (Response.badRequest p)
    unfold responseTryFrom responseFromStr
    rw [hp]
    rfl
  | clientCertificateRequired p =>
    have hp : clientCertificateRequiredP ('6' :: '0' :: ' ' :: (p ++ '\r' :: '\n' :: [])) =
        PR.ok (Response.clientCertificateRequired p) [] := by
      show lineTail Response.clientCertificateRequired (' ' :: (p ++ '\r' :: '\n' :: [])) = _
      exact lineTail_exact _ _ _ h
    show responseTryFrom ('6' :: '0' :: ' ' :: (p ++ '\r' :: '\n' :: [])) =
      TR.ok (Response.clientCertificateRequired p)
    unfold responseTryFrom responseFromStr
    rw [hp]
    rfl
  | certificateNotAuthorized p =>
    have hp : clientCertificateRequiredP ('6' :: '1' :: ' ' :: (p ++ '\r' :: '\n' :: [])) =
        PR.ok (Response.certificateNotAuthorized p) [] := by
      show lineTail Response.certificateNotAuthorized (' ' :: (p ++ '\r' :: '\n' :: [])) = _
      exact lineTail_exact _ _ _ h
    show responseTryFrom ('6' :: '1' :: ' ' :: (p ++ '\r' :: '\n' :: [])) =
      TR.ok (Response.certificateNotAuthorized p)
    unfold responseTryFrom responseFromStr
    rw [hp]
    rfl
  | certificateNotValid p =>
    have hp : clientCertificateRequiredP ('6' :: '2' :: ' ' :: (p ++ '\r' :: '\n' :: [])) =
        PR.ok (Response.certificateNotValid p) [] := by
      show lineTail Response.certificateNotValid (' ' :: (p ++ '\r' :: '\n' :: [])) = _
      exact lineTail_exact _ _ _ h
    show responseTryFrom ('6' :: '2' :: ' ' :: (p ++ '\r' :: '\n' :: [])) =
      TR.ok (Response.certificateNotValid p)
    unfold responseTryFrom responseFromStr
    rw [hp]
    rfl
  | success mt body =>
    rcases mt with ⟨t, cs⟩
    cases t <;> cases cs <;> rfl

theorem dropTag2_none (a b c1 c2 : Char) (ts rest : List Char)
    (h : ¬(c1 = a ∧ c2 = b)) :
    dropTag (a :: b :: ts) (c1 :: c2 :: rest) = none := by
  by_cases h1 : c1 = a
  · subst h1
    have h2 : ¬c2 = b := fun hb => h ⟨rfl, hb⟩
    simp [dropTag, h2]
  · simp [dropTag, h1]

/-- C8: any input whose two leading characters are digits outside the
closed set of eighteen recognized status tokens makes every branch of
the response parser fail, so Response::try_from returns a typed error
and never any variant. -/
theorem response_unknown_code_err (c1 c2 : Char) (rest : List Char)
    (_hd1 : c1.isDigit = true) (_hd2 : c2.isDigit = true)
    (h : (c1, c2) ∉ validCodePairs) :
    responseTryFrom (c1 :: c2 :: rest) = TR.err := by
  have np : ∀ a b : Char, (a, b) ∈ validCodePairs → ¬(c1 = a ∧ c2 = b) := by
    rintro a b hab ⟨rfl, rfl⟩
    exact h hab
  unfold responseTryFrom responseFromStr inputExpectedP successP
    temporaryRedirectP temporaryFailureP permanentFailureP
    clientCertificateRequiredP
  rw [dropTag2_none '1' '0' c1 c2 [] rest (np _ _ (by decide)),
    dropTag2_none '1' '1' c1 c2 [] rest (np _ _ (by decide)),
    dropTag2_none '2' '0' c1 c2 [' '] rest (np _ _ (by decide)),
    dropTag2_none '3' '0' c1 c2 [] rest (np _ _ (by decide)),
    dropTag2_none '3' '1' c1 c2 [] rest (np _ _ (by decide)),
    dropTag2_none '4' '0' c1 c2 [] rest (np _ _ (by decide)),
    dropTag2_none '4' '1' c1 c2 [] rest (np _ _ (by decide)),
    dropTag2_none '4' '2' c1 c2 [] rest (np _ _ (by decide)),
    dropTag2_none '4' '3' c1 c2 [] rest (np _ _ (by decide)),
    dropTag2_none '4' '4' c1 c2 [] rest (np _ _ (by decide)),
    dropTag2_none '5' '0' c1 c2 [] rest (np _ _ (by decide)),
    dropTag2_none '5' '1' c1 c2 [] rest (np _ _ (by decide)),
    dropTag2_none '5' '2' c1 c2 [] rest (np _ _ (by decide)),
    dropTag2_none '5' '3' c1 c2 [] rest (np _ _ (by decide)),
    dropTag2_none '5' '9' c1 c2 [] rest (np _ _ (by decide)),
    dropTag2_none '6' '0' c1 c2 [] rest (np _ _ (by decide)),
    dropTag2_none '6' '1' c1 c2 [] rest (np _ _ (by decide)),
    dropTag2_none '6' '2' c1 c2 [] rest (np _ _ (by decide))]

/-- C7: on an unknown hostname, verify_or_learn_host returns New when
persistence succeeds; a subsequent call with the same fingerprint
returns Match, and a subsequent call with a different fingerprint
returns Mismatch — both leaving the store state (and so the stored
fingerprint) unchanged. -/
theorem tofu_check_and_learn (s : TofuStore) (h f f2 : String)
    (p2 p3 : Bool)
    (hunknown : lookupHost s.knownHosts h = none) (hne : f2 ≠ f) :
    (verifyOrLearnHost s h f true).2 = some TofuResult.new ∧
    verifyOrLearnHost (verifyOrLearnHost s h f true).1 h f p2 =
      ((verifyOrLearnHost s h f true).1, some TofuResult.hostMatch) ∧
    verifyOrLearnHost (verifyOrLearnHost s h f true).1 h f2 p3 =
      ((verifyOrLearnHost s h f true).1, some TofuResult.mismatch) := by
  have hv : verifyHost s h f = TofuResult.unknown := by
    unfold verifyHost
    rw [hunknown]
  have hstate : (verifyOrLearnHost s h f true).1 =
      { s with knownHosts := insertHost s.knownHosts h f } := by
    unfold verifyOrLearnHost
    rw [hv]
    rfl
  have hlook : lookupHost (insertHost s.knownHosts h f) h = some f :=
    lookupHost_insertHost_self _ _ _
  refine ⟨?_, ?_, ?_⟩
  · unfold verifyOrLearnHost
    rw [hv]
    rfl
  · rw [hstate]
    unfold verifyOrLearnHost verifyHost
    dsimp only
    rw [hlook]
    dsimp only
    rw [if_pos rfl]
  · rw [hstate]
    unfold verifyOrLearnHost verifyHost
    dsimp only
    rw [hlook]
    dsimp only
    rw [if_neg (fun he => hne (Eq.symm he))]

/-- C10: for every store state, hostname, fingerprint and persistence
outcome, verify_or_learn_host never returns Ok(Unknown): the internal
Unknown state is always resolved by learning before it escapes. -/
theorem verify_or_learn_never_unknown (s : TofuStore) (h f : String)
    (p : Bool) :
    (verifyOrLearnHost s h f p).2 ≠ some TofuResult.unknown := by
  cases hv : verifyHost s h f <;>
    cases p <;>
      simp [verifyOrLearnHost, hv, learnHost, saveToDisk]

/-- C4 (amended): on input with no scheme and no "//" authority, the
parser turns the leading path segment (up to the first '/') into the
host exactly when the parsed path is nonempty and does not start with
'/', with no hostname-grammar check at all — single-label segments
included. -/
theorem bare_segment_becomes_host (t : List Char)
    (hs : schemeP t = none) (hh : hostP t = PR.fail) :
    prHost (urlP t) =
      (if (pathP t).1 ≠ [] ∧ (pathP t).1.head? ≠ some '/' then
        some ⟨(pathP t).1.takeWhile (fun c => c != '/'), DEFAULT_PORT⟩
      else none) := by
  have h1 : optSchemeP t = (none, t) := by
    unfold optSchemeP
    rw [hs]
  have h2 : hostOptP t = PR.ok none t := by
    unfold hostOptP
    rw [hh]
  unfold urlP
  rw [h1]
  dsimp only
  rw [h2]
  dsimp only
  unfold prHost buildURL
  by_cases hc : (pathP t).1 ≠ [] ∧ (pathP t).1.head? ≠ some '/'
  · rw [if_pos ⟨rfl, rfl, hc.1, hc.2⟩, if_pos hc]
  · have hcn : ¬((none : Option Scheme) = none ∧
        (none : Option Host) = none ∧ (pathP t).1 ≠ [] ∧
        (pathP t).1.head? ≠ some '/') := by
      rintro ⟨-, -, a, b⟩
      exact hc ⟨a, b⟩
    rw [if_neg hcn, if_neg hc]

/-- C3 (amended): the send_request gate lets a request proceed exactly
when the wire form (serialized URL plus CRLF) is at most 1026 bytes —
equivalently, when the serialized URL alone is at most 1024 bytes; the
check runs before anything is written.  The original 1024-byte bound on
the whole wire form is off by the two CRLF bytes. -/
theorem request_gate_iff (u : URL) :
    sendRequestGate u = none ↔ byteLen (requestToChars u) ≤ 1026 := by
  have hreq : byteLen (requestToChars u) = byteLen (urlToChars u) + 2 := by
    unfold requestToChars
    rw [byteLen_append]
    rfl
  rw [hreq]
  unfold sendRequestGate
  by_cases hle : byteLen (urlToChars u) ≤ 1024
  · rw [if_pos (by simp [isValidLength, hle])]
    simp
    omega
  · rw [if_neg (by simp [isValidLength, hle])]
    simp
    omega

/-- C2 (code_bug evaluation): parsing a URL whose digits-only port field
denotes 70000 ends in the crash outcome, the embedding of the source's
`parse::<u16>().unwrap()` panic, not in a typed parse error as the claim
requires. -/
theorem url_port_crash :
    urlTryFrom "gemini://example.com:70000".data = TR.crash := by decide

/-- C9: parsing the empty string succeeds with scheme Gemini, no host,
path "/" and no query — the parser does not reject empty input. -/
theorem url_empty_ok :
    urlTryFrom "".data = TR.ok ⟨Scheme.gemini, none, "/".data, none⟩ := by
  decide

/-- C1 (code_bug evaluation): starting from an empty trust store, a
verify-or-learn call for an unknown hostname whose persistence write
fails returns the propagated failure, yet the in-memory entries mapping
afterwards still contains the entry for that hostname — the source
inserts before saving and never rolls back, contradicting the claim. -/
theorem tofu_persist_failure_keeps_entry :
    verifyOrLearnHost ⟨"known_hosts.json", []⟩ "example.com" "aabb" false =
      (⟨"known_hosts.json", [("example.com", "aabb")]⟩, none) ∧
    lookupHost (verifyOrLearnHost ⟨"known_hosts.json", []⟩ "example.com"
      "aabb" false).1.knownHosts "example.com" = some "aabb" := by decide

/-- C4 counterexample: parsing the single-label input "foo" yields a URL
whose host is Some("foo", 1965), although "foo" has no dot and so does
not satisfy the hostname grammar — refuting the claim's "only if"
direction. -/
theorem bare_single_label_is_host :
    urlTryFrom "foo".data =
      TR.ok ⟨Scheme.gemini, some ⟨"foo".data, DEFAULT_PORT⟩, "/".data, none⟩ := by
  decide

/-- C4 witness: the amended theorem applied at the concrete input
"foo". -/
theorem bare_segment_becomes_host_w :
    (schemeP "foo".data = none ∧ hostP "foo".data = PR.fail) ∧
    prHost (urlP "foo".data) = some ⟨"foo".data, DEFAULT_PORT⟩ :=
  ⟨⟨by decide, by decide⟩,
    (bare_segment_becomes_host "foo".data (by decide) (by decide)).trans
      (by decide)⟩

/-- C5 counterexample: serializing Input with the prompt "a\r\nb" and
re-parsing produces a parse error (the prompt is cut at its embedded
CRLF and the tail becomes trailing input), so the round trip fails for
this value — refuting the claim's unrestricted quantification. -/
theorem response_crlf_meta_breaks_roundtrip :
    responseTryFrom
      (responseToChars (Response.input ('a' :: '\r' :: '\n' :: ['b']))) =
      TR.err := by decide

/-- C5 witness: the amended round trip applied at Input "hi". -/
theorem response_roundtrip_w :
    hasCRLF (metaOf (Response.input "hi".data)) = false ∧
    responseTryFrom (responseToChars (Response.input "hi".data)) =
      TR.ok (Response.input "hi".data) :=
  ⟨by decide, response_roundtrip _ (by decide)⟩

/-- C6 counterexample: "about:meow" is in the parser's image, but its
serialization "about:/meow" re-parses to a URL with path "/meow" ≠
"meow", so the round trip fails on the parser's own output domain; and
the default port 1965 is not omitted from the serialized form. -/
theorem url_roundtrip_cex :
    urlTryFrom "about:meow".data =
      TR.ok ⟨Scheme.about, none, "meow".data, none⟩ ∧
    urlTryFrom (urlToChars ⟨Scheme.about, none, "meow".data, none⟩) =
      TR.ok ⟨Scheme.about, none, "/meow".data, none⟩ ∧
    (TR.ok (⟨Scheme.about, none, "/meow".data, none⟩ : URL) ≠
      TR.ok (⟨Scheme.about, none, "meow".data, none⟩ : URL)) ∧
    urlToChars ⟨Scheme.gemini, some ⟨"example.com".data, DEFAULT_PORT⟩,
        "/".data, none⟩ =
      "gemini://example.com:1965/".data := by decide

/-- C6 witness: the amended round trip applied at the parse result of
"gemini://example.com/path?query". -/
theorem url_roundtrip_w :
    urlCanonical ⟨Scheme.gemini, some ⟨"example.com".data, 1965⟩,
      "/path".data, some "query".data⟩ = true ∧
    urlTryFrom (urlToChars ⟨Scheme.gemini, some ⟨"example.com".data, 1965⟩,
        "/path".data, some "query".data⟩) =
      TR.ok ⟨Scheme.gemini, some ⟨"example.com".data, 1965⟩,
        "/path".data, some "query".data⟩ :=
  ⟨by decide, url_roundtrip _ (by decide)⟩

/-- C8 witness: the unknown-code theorem applied at "70 meow\r\n". -/
theorem response_unknown_code_err_w :
    (('7' : Char).isDigit = true ∧ ('0' : Char).isDigit = true ∧
      ('7', '0') ∉ validCodePairs) ∧
    responseTryFrom "70 meow\r\n".data = TR.err :=
  ⟨⟨by decide, by decide, by decide⟩,
    response_unknown_code_err '7' '0' " meow\r\n".data (by decide) (by decide)
      (by decide)⟩

/-- C7 witness: the check-and-learn protocol run from the empty store
with fingerprints "aa" and "bb". -/
theorem tofu_check_and_learn_w :
    (lookupHost ([] : List (String × String)) "example.com" = none ∧
      ("bb" : String) ≠ "aa") ∧
    ((verifyOrLearnHost ⟨"known_hosts.json", []⟩ "example.com" "aa" true).2 =
        some TofuResult.new ∧
      verifyOrLearnHost (verifyOrLearnHost ⟨"known_hosts.json", []⟩
          "example.com" "aa" true).1 "example.com" "aa" true =
        ((verifyOrLearnHost ⟨"known_hosts.json", []⟩ "example.com" "aa"
          true).1, some TofuResult.hostMatch) ∧
      verifyOrLearnHost (verifyOrLearnHost ⟨"known_hosts.json", []⟩
          "example.com" "aa" true).1 "example.com" "bb" false =
        ((verifyOrLearnHost ⟨"known_hosts.json", []⟩ "example.com" "aa"
          true).1, some TofuResult.mismatch)) :=
  ⟨⟨by decide, by decide⟩,
    tofu_check_and_learn ⟨"known_hosts.json", []⟩ "example.com" "aa" "bb"
      true false (by decide) (by decide)⟩

/-- C3 counterexample: a URL serializing to 1023 bytes has a 1025-byte
wire form, which exceeds 1024, yet the length check passes and
send_request's gate does not reject — refuting the claim as stated. -/
theorem request_gate_cex :
    byteLen (requestToChars ⟨Scheme.gemini, none,
      '/' :: List.replicate 1015 'a', none⟩) = 1025 ∧
    isValidLength ⟨Scheme.gemini, none,
      '/' :: List.replicate 1015 'a', none⟩ = true ∧
    sendRequestGate ⟨Scheme.gemini, none,
      '/' :: List.replicate 1015 'a', none⟩ = none := by
  set_option maxRecDepth 10000 in decide

end Yagc
